import Mathlib

/-!
Verification of the media-transcriber job-orchestration core.

The definitions below are a shallow embedding of the Go source:
- `internal/domain` : `JobStatus`, `Job`
- `internal/jobs`   : `Manager` (Start / Transition / Cancel / Reset),
                      `EventBus` (Publish / Since)
- `internal/transcribe/pipeline.go` : `normalizeLanguage`,
                      `buildWhisperArgs`, `buildFFmpegArgs`,
                      `transcriptFileName`, `resolveModelPath`, `Run`
- `internal/bootstrap/app.go` : `StartTranscription`,
                      `CancelTranscription`, `runTranscriptionJob`,
                      `publishStatus`, `mapStageToStatus`
Filesystem and process effects are abstracted as explicit environment
records; each embedded function mirrors the Go control flow line by line.
-/

/-- `domain.JobStatus` : the seven lifecycle states of a job. -/
inductive JobStatus where
  | idle
  | preprocessing
  | transcribing
  | exporting
  | done
  | failed
  | cancelled
deriving DecidableEq, Repr

/-- `domain.Job` : the single live job record, `{ID, Status}`. -/
structure Job where
  id : String
  status : JobStatus
deriving DecidableEq, Repr

/-- Errors returned by the job `Manager` operations.
`ErrJobAlreadyRunning`, `ErrNoRunningJob`, the `fmt.Errorf` usage error of
`Transition` ("cannot transition without an active job"), and the
`invalid transition: from -> to` error carrying both endpoints. -/
inductive JobError where
  | alreadyRunning
  | noRunningJob
  | noActiveJob
  | invalidTransition (fromSt toSt : JobStatus)
deriving DecidableEq, Repr

namespace Manager

/-- `jobs.isRunning` : whether a status is an active pipeline stage. -/
def isRunning : JobStatus → Bool
  | .preprocessing => true
  | .transcribing => true
  | .exporting => true
  | _ => false

/-- `jobs.isValidTransition` : the allowed state-machine edges. -/
def isValidTransition : JobStatus → JobStatus → Bool
  | .idle, t => t = .preprocessing
  | .preprocessing, t => t = .transcribing || t = .failed || t = .cancelled
  | .transcribing, t => t = .exporting || t = .failed || t = .cancelled
  | .exporting, t => t = .done || t = .failed || t = .cancelled
  | .done, t => t = .preprocessing || t = .idle
  | .failed, t => t = .preprocessing || t = .idle
  | .cancelled, t => t = .preprocessing || t = .idle

/-- `jobs.NewManager` : initial manager state (empty id, `idle`). -/
def initial : Job := { id := "", status := .idle }

/-- `jobs.Manager.Start` : fail with AlreadyRunning when active, else
replace the record with `{ID: jobID, Status: preprocessing}`. -/
def start (s : Job) (jobID : String) : Except JobError Job :=
  if isRunning s.status then
    .error .alreadyRunning
  else
    .ok { id := jobID, status := .preprocessing }

/-- `jobs.Manager.Transition` : usage error when no job id is set and the
target is not idle; no-op success when the target equals the current
status; InvalidTransition when the edge is absent; else mutate status. -/
def transition (s : Job) (tgt : JobStatus) : Except JobError Job :=
  if s.id = "" ∧ tgt ≠ .idle then
    .error .noActiveJob
  else if tgt = s.status then
    .ok s
  else if isValidTransition s.status tgt then
    .ok { s with status := tgt }
  else
    .error (.invalidTransition s.status tgt)

/-- `jobs.Manager.Cancel` : NoRunningJob unless active, else set
status to cancelled. -/
def cancel (s : Job) : Except JobError Job :=
  if isRunning s.status then
    .ok { s with status := .cancelled }
  else
    .error .noRunningJob

/-- `jobs.Manager.Reset` : clear the job id and return to idle. -/
def reset (_ : Job) : Job := { id := "", status := .idle }

/-- Manager states reachable from `NewManager()` through the public
operations. `Start` is invoked by callers with a non-empty job id
(`fmt.Sprintf("job-%d", ...)` in the orchestrator). Failed operations
leave the state unchanged, so only successful ones appear. -/
inductive Reachable : Job → Prop where
  | init : Reachable initial
  | start {s t : Job} {jobID : String} : Reachable s → jobID ≠ "" →
      start s jobID = .ok t → Reachable t
  | transition {s t : Job} {tgt : JobStatus} : Reachable s →
      transition s tgt = .ok t → Reachable t
  | cancel {s t : Job} : Reachable s → cancel s = .ok t → Reachable t
  | reset {s : Job} : Reachable s → Reachable (reset s)

end Manager

/-- `jobs.EventType` : classification of published events. -/
inductive EventType where
  | status
  | log
  | result
  | error
deriving DecidableEq, Repr

/-- `jobs.Event` : one sequenced payload. The Go struct's optional fields
keep their zero values when absent (`Status` is a string whose empty
value we model as `none`). The wall-clock `Timestamp` field is omitted:
`Publish` fills it with the current time, which no verified property
depends on. -/
structure Event where
  seq : Int := 0
  jobId : String := ""
  type : EventType := .status
  status : Option JobStatus := none
  message : String := ""
  command : String := ""
  args : List String := []
  exitCode : Int := 0
  stdout : String := ""
  stderr : String := ""
  textPath : String := ""
deriving DecidableEq, Repr

/-- `jobs.EventBus` : bounded, sequenced, append-only event store. -/
structure EventBus where
  nextSeq : Int
  maxEvents : Nat
  events : List Event
deriving DecidableEq, Repr

namespace EventBus

/-- `jobs.NewEventBus` : capacity defaults to 500 when non-positive. -/
def newEventBus (maxEvents : Int) : EventBus :=
  { nextSeq := 0,
    maxEvents := if maxEvents ≤ 0 then 500 else maxEvents.toNat,
    events := [] }

/-- `jobs.EventBus.Publish` : assign the next sequence number, append,
and drop the oldest `length - maxEvents` entries when over capacity.
Returns the updated bus together with the finalized event. -/
def publish (b : EventBus) (e : Event) : EventBus × Event :=
  let seq := b.nextSeq + 1
  let e' := { e with seq := seq }
  let evs := b.events ++ [e']
  let evs' :=
    if evs.length > b.maxEvents then evs.drop (evs.length - b.maxEvents)
    else evs
  ({ b with nextSeq := seq, events := evs' }, e')

/-- `jobs.EventBus.Since` : all retained events with sequence strictly
greater than `seq`, in stored order (nil when nothing is retained). -/
def since (b : EventBus) (seq : Int) : List Event :=
  if b.events.length = 0 then []
  else b.events.filter (fun e => seq < e.seq)

/-- Iterate `Publish` over a list of events, collecting the finalized
events in publish order. -/
def publishAllOut : EventBus → List Event → EventBus × List Event
  | b, [] => (b, [])
  | b, e :: rest =>
    let r := publish b e
    let t := publishAllOut r.1 rest
    (t.1, r.2 :: t.2)

/-- The publish history with sequence numbers `k+1, k+2, ...` assigned
in order, as `Publish` finalizes them. -/
def annotateFrom (k : Int) : List Event → List Event
  | [] => []
  | e :: rest => { e with seq := k + 1 } :: annotateFrom (k + 1) rest

end EventBus

/-- The Latin-1 part of Go `unicode.IsSpace`: space, tab, newline,
vertical tab, form feed, carriage return, NEL and NBSP. (The remaining
Unicode space-property characters are irrelevant to the verified
properties.) -/
def goIsSpace (c : Char) : Bool :=
  c = ' ' || c = '\t' || c = '\n' || c.val = 11 || c.val = 12 ||
    c = '\r' || c.val = 133 || c.val = 160

/-- Go `strings.TrimSpace` : strip leading and trailing whitespace. -/
def goTrimSpace (s : String) : String :=
  String.mk (((s.data.dropWhile goIsSpace).reverse.dropWhile
    goIsSpace).reverse)

/-- ASCII lowering of one character, as Go `strings.ToLower` and
`strings.EqualFold` act on ASCII letters (the only case folds that can
produce the ASCII comparands `"auto"`, `".bin"`, `".gguf"` used below). -/
def asciiLowerChar (c : Char) : Char :=
  if 'A' ≤ c ∧ c ≤ 'Z' then Char.ofNat (c.toNat + 32) else c

/-- Go `strings.ToLower`, restricted to ASCII folding (see
`asciiLowerChar`). -/
def asciiLower (s : String) : String :=
  String.mk (s.data.map asciiLowerChar)

/-- Go `strings.EqualFold`, restricted to ASCII folding (see
`asciiLowerChar`). -/
def equalFold (a b : String) : Bool :=
  asciiLower a = asciiLower b

/-- Go `strings.TrimSuffix` : drop the suffix when present. -/
def trimSuffix (s sfx : String) : String :=
  if sfx.data.isSuffixOf s.data then
    String.mk (s.data.take (s.data.length - sfx.data.length))
  else s

/-- Reverse scan for Go `filepath.Ext`: walk from the end of the path,
stop at a path separator, return the suffix from the last dot. -/
def extScan (acc : List Char) : List Char → Option (List Char)
  | [] => none
  | c :: rest =>
    if c = '/' then none
    else if c = '.' then some (c :: acc)
    else extScan (c :: acc) rest

/-- Go `filepath.Ext` : the suffix beginning at the final dot in the
final path element; empty if there is no dot. -/
def filepathExt (path : String) : String :=
  match extScan [] path.data.reverse with
  | some ext => String.mk ext
  | none => ""

/-- Go `filepath.Base` : the last element of the path after stripping
trailing separators; "." for the empty path, "/" when the path consists
entirely of separators. -/
def filepathBase (path : String) : String :=
  if path = "" then "."
  else
    let rev := path.data.reverse.dropWhile (fun c => c = '/')
    if rev = [] then "/"
    else String.mk ((rev.takeWhile (fun c => c ≠ '/')).reverse)

/-- Lexicographic strict order on character lists: the order Go
`sort.Strings` uses (byte-wise comparison, which on UTF-8 agrees with
code-point-wise comparison). -/
def charListLess : List Char → List Char → Bool
  | _, [] => false
  | [], _ :: _ => true
  | x :: xs, y :: ys => x < y || (x = y && charListLess xs ys)

/-- Insert a string into a list sorted ascending by `charListLess`. -/
def insertSorted (x : String) : List String → List String
  | [] => [x]
  | y :: rest =>
    if charListLess y.data x.data then y :: insertSorted x rest
    else x :: y :: rest

/-- Go `sort.Strings` : sort ascending in byte-wise lexicographic
order (insertion sort; `sort.Strings` equal elements are identical, so
stability is irrelevant). -/
def sortStrings : List String → List String
  | [] => []
  | x :: rest => insertSorted x (sortStrings rest)

/-- Go `filepath.Join` on already-clean paths (`Join` additionally runs
`Clean`, which is the identity on the clean paths handled here). -/
def filepathJoin (dir name : String) : String :=
  if dir = "" then name else dir ++ "/" ++ name

namespace Pipeline

/-- `transcribe.Request` (the stage/log callbacks are modelled by the
trace returned by `run`). -/
structure Request where
  inputPath : String
  modelPath : String
  language : String
  outputDir : String
deriving DecidableEq, Repr

/-- `transcribe.CommandLog` : one captured external invocation. -/
structure CommandLog where
  command : String := ""
  args : List String := []
  exitCode : Int := 0
  stdout : String := ""
  stderr : String := ""
deriving DecidableEq, Repr

/-- `transcribe.PipelineError` : stage-tagged failure. `canceled` models
`errors.Is(err, context.Canceled)` on the wrapped cause (`Err`), which
`runTranscriptionJob` inspects through `Unwrap`. -/
structure PipelineError where
  stage : String
  message : String
  commandLog : CommandLog := {}
  canceled : Bool := false
deriving DecidableEq, Repr

/-- `transcribe.Result` : output artifacts and logs of one run. -/
structure RunResult where
  preprocessedAudioPath : String
  textPath : String
  transcript : String
  logs : List CommandLog
  tempDir : String
deriving DecidableEq, Repr

/-- Result of one external command as observed by the pipeline:
the captured streams and exit code, whether `Run` returned an error,
and whether that error is classified as context cancellation. -/
structure CmdOutcome where
  stdout : String := ""
  stderr : String := ""
  exitCode : Int := 0
  failed : Bool := false
  canceled : Bool := false
deriving DecidableEq, Repr

/-- Stat result: the only attribute the pipeline reads is `IsDir`. -/
structure FileInfo where
  isDir : Bool
deriving DecidableEq, Repr

/-- One directory entry: name and `IsDir`. -/
structure DirEntry where
  name : String
  isDir : Bool
deriving DecidableEq, Repr

/-- The injected dependencies of `transcribe.Pipeline`: `stat`,
`readDir`, `readFile`, `mkdirAll` (true = success), `mkdirTemp`
(the created workspace path, or failure), and the command runner.
`none` models a returned error. -/
structure PipelineEnv where
  stat : String → Option FileInfo
  readDir : String → Option (List DirEntry)
  readFile : String → Option String
  mkdirAll : String → Bool
  mkdirTemp : Option String
  run : String → List String → CmdOutcome

/-- `transcribe.normalizeLanguage` : trimmed value, with empty and
case-insensitive "auto" mapped to no override. -/
def normalizeLanguage (raw : String) : String :=
  let lang := goTrimSpace raw
  if lang = "" || equalFold lang "auto" then "" else lang

/-- `transcribe.buildFFmpegArgs` : fixed mono 16 kHz PCM WAV argument
set. -/
def buildFFmpegArgs (inputPath outPath : String) : List String :=
  ["-hide_banner", "-nostdin", "-y", "-i", inputPath, "-vn", "-ac", "1",
    "-ar", "16000", "-c:a", "pcm_s16le", outPath]

/-- `transcribe.buildWhisperArgs` : model, audio, text output base and
txt flag, plus a language flag only for a normalized language. -/
def buildWhisperArgs (modelPath audioPath textBase language : String) :
    List String :=
  let args := ["-m", modelPath, "-f", audioPath, "-of", textBase, "-otxt"]
  let lang := normalizeLanguage language
  if lang ≠ "" then args ++ ["-l", lang] else args

/-- `transcribe.transcriptFileName` : input base name with its extension
stripped (degenerate names replaced by "transcript"), plus ".txt". -/
def transcriptFileName (inputPath : String) : String :=
  let base := filepathBase inputPath
  let name := goTrimSpace (trimSuffix base (filepathExt base))
  let name := if name = "" || name = "." || name = "/" then "transcript"
    else name
  name ++ ".txt"

/-- The model-name collection loop of `resolveModelPath`: names of the
non-directory entries whose lowered extension is `.bin` or `.gguf`. -/
def modelCandidates (entries : List DirEntry) : List String :=
  (entries.filter (fun e => !e.isDir &&
    (asciiLower (filepathExt e.name) = ".bin" ||
      asciiLower (filepathExt e.name) = ".gguf"))).map (fun e => e.name)

/-- `transcribe.Pipeline.resolveModelPath` : a file path is used
directly; a directory is scanned for non-directory `.bin`/`.gguf`
entries, sorted ascending, and the first is joined to the directory. -/
def resolveModelPath (env : PipelineEnv) (rawPath : String) :
    Except String String :=
  let modelPath := goTrimSpace rawPath
  if modelPath = "" then .error "model path is required"
  else
    match env.stat modelPath with
    | none => .error ("cannot access model path: " ++ modelPath)
    | some info =>
      if !info.isDir then .ok modelPath
      else
        match env.readDir modelPath with
        | none => .error ("cannot read model directory: " ++ modelPath)
        | some entries =>
          let modelNames := modelCandidates entries
          if modelNames = [] then
            .error ("no .bin or .gguf model files found in: " ++ modelPath)
          else
            .ok (filepathJoin modelPath (sortStrings modelNames).headI)

/-- The trace of effects `Run` performs besides its return value: stages
emitted via `OnStage`, command logs emitted via `OnLog`, and paths
removed via `removeAll`. -/
structure RunTrace where
  stages : List String := []
  logs : List CommandLog := []
  removed : List String := []
deriving DecidableEq, Repr

/-- `transcribe.Pipeline.Run` : validate input, resolve the model,
validate/create the output directory, create the workspace, run the
conversion tool, check its artifact, run the transcription tool, check
and read the transcript; every failure after workspace creation removes
the workspace. `ffmpegPath`/`whisperPath` are the `Pipeline` struct
fields (production: "ffmpeg"/"whisper.cpp"). -/
def run (env : PipelineEnv) (ffmpegPath whisperPath : String)
    (req : Request) : Except PipelineError RunResult × RunTrace :=
  if goTrimSpace req.inputPath = "" then
    (.error { stage := "preprocessing", message := "input media path is required" }, {})
  else
    match env.stat req.inputPath with
    | none => (.error { stage := "preprocessing", message := "cannot access input media: " ++ req.inputPath }, {})
    | some _ =>
      match resolveModelPath env req.modelPath with
      | .error msg => (.error { stage := "transcribing", message := msg }, {})
      | .ok modelPath =>
        if goTrimSpace req.outputDir = "" then
          (.error { stage := "exporting", message := "output directory is required" }, {})
        else if !env.mkdirAll req.outputDir then
          (.error { stage := "exporting", message := "cannot create output directory: " ++ req.outputDir }, {})
        else
          match env.mkdirTemp with
          | none => (.error { stage := "preprocessing", message := "failed to create temporary workspace" }, {})
          | some tempDir =>
            let outPath := filepathJoin tempDir "preprocessed-16k-mono.wav"
            let args := buildFFmpegArgs req.inputPath outPath
            let cmdResult := env.run ffmpegPath args
            let log : CommandLog := { command := ffmpegPath, args := args, exitCode := cmdResult.exitCode, stdout := cmdResult.stdout, stderr := cmdResult.stderr }
            if cmdResult.failed then
              (.error { stage := "preprocessing", message := "ffmpeg audio conversion failed", commandLog := log, canceled := cmdResult.canceled },
               { stages := ["preprocessing"], logs := [log], removed := [tempDir] })
            else
              match env.stat outPath with
              | none =>
                (.error { stage := "preprocessing", message := "ffmpeg completed but output file is missing", commandLog := log },
                 { stages := ["preprocessing"], logs := [log], removed := [tempDir] })
              | some _ =>
                let textPath := filepathJoin req.outputDir (transcriptFileName req.inputPath)
                let textBase := trimSuffix textPath (filepathExt textPath)
                let whisperArgs := buildWhisperArgs modelPath outPath textBase req.language
                let whisperResult := env.run whisperPath whisperArgs
                let whisperLog : CommandLog := { command := whisperPath, args := whisperArgs, exitCode := whisperResult.exitCode, stdout := whisperResult.stdout, stderr := whisperResult.stderr }
                if whisperResult.failed then
                  (.error { stage := "transcribing", message := "whisper.cpp transcription failed", commandLog := whisperLog, canceled := whisperResult.canceled },
                   { stages := ["preprocessing", "transcribing"], logs := [log, whisperLog], removed := [tempDir] })
                else
                  match env.stat textPath with
                  | none =>
                    (.error { stage := "exporting", message := "whisper.cpp completed but transcript .txt file is missing", commandLog := whisperLog },
                     { stages := ["preprocessing", "transcribing"], logs := [log, whisperLog], removed := [tempDir] })
                  | some _ =>
                    match env.readFile textPath with
                    | none =>
                      (.error { stage := "exporting", message := "failed to read transcript file: " ++ textPath, commandLog := whisperLog },
                       { stages := ["preprocessing", "transcribing", "exporting"], logs := [log, whisperLog], removed := [tempDir] })
                    | some content =>
                      (.ok { preprocessedAudioPath := outPath, textPath := textPath, transcript := goTrimSpace content, logs := [log, whisperLog], tempDir := tempDir },
                       { stages := ["preprocessing", "transcribing", "exporting"], logs := [log, whisperLog], removed := [] })

end Pipeline

/-- Test fixture: a model directory holding `a-small.gguf` and
`z-large.bin` (the spec's worked example). -/
def modelDirEnv : Pipeline.PipelineEnv :=
  { stat := fun p => if p = "models" then some { isDir := true } else none,
    readDir := fun p => if p = "models" then
      some [{ name := "z-large.bin", isDir := false },
        { name := "a-small.gguf", isDir := false }] else none,
    readFile := fun _ => none,
    mkdirAll := fun _ => false,
    mkdirTemp := none,
    run := fun _ _ => {} }

/-- Test fixture: valid input, model file and output directory, with a
conversion tool that fails with exit code 1. -/
def ffmpegFailEnv : Pipeline.PipelineEnv :=
  { stat := fun p => if p = "in.mp4" then some { isDir := false }
      else if p = "model.bin" then some { isDir := false } else none,
    readDir := fun _ => none,
    readFile := fun _ => none,
    mkdirAll := fun _ => true,
    mkdirTemp := some "/tmp/ws",
    run := fun n _ => if n = "ffmpeg" then
      { stderr := "boom", exitCode := 1, failed := true } else {} }

namespace App

/-- The orchestrator state shared between the caller-facing API and the
pipeline task (`bootstrap.App`): the Job Manager's current job, the
event bus, the cancellation bookkeeping (`activeJobID`, and whether a
cancellation token is recorded), plus the full publish history
(every event ever finalized by `Publish`, kept for reasoning about
sequence ordering; the bus itself retains only a bounded suffix). -/
structure AppState where
  jobs : Job
  bus : EventBus
  history : List Event
  activeJobID : String
  hasCancel : Bool

/-- The orchestrator state right after `NewWithAssets`: a fresh manager
and a bus of capacity 1000. -/
def initialAppState : AppState :=
  { jobs := Manager.initial, bus := EventBus.newEventBus 1000,
    history := [], activeJobID := "", hasCancel := false }

/-- `App.publishEvent` : publish on the bus (the live push to the UI
runtime has no further effect on this state). -/
def publishEvent (s : AppState) (e : Event) : AppState × Event :=
  let r := EventBus.publish s.bus e
  ({ s with bus := r.1, history := s.history ++ [r.2] }, r.2)

/-- `App.publishStatus` : publish a normalized status event. -/
def publishStatus (s : AppState) (jobID : String) (st : JobStatus)
    (msg : String) : AppState :=
  (publishEvent s { jobId := jobID, type := .status, status := some st, message := msg }).1

/-- `bootstrap.mapStageToStatus`. -/
def mapStageToStatus (stage : String) : Option JobStatus :=
  if stage = "preprocessing" then some .preprocessing
  else if stage = "transcribing" then some .transcribing
  else if stage = "exporting" then some .exporting
  else none

/-- The `OnStage` callback of `runTranscriptionJob` : map the stage name,
attempt the manager transition, and publish a status event only when the
transition succeeded. -/
def onStage (jobID stage : String) (s : AppState) : AppState :=
  match mapStageToStatus stage with
  | none => s
  | some st =>
    match Manager.transition s.jobs st with
    | .ok j => publishStatus { s with jobs := j } jobID st
        ("Running " ++ stage ++ " stage")
    | .error _ => s

/-- The `OnLog` callback of `runTranscriptionJob` : publish a log event
for one completed external command. -/
def onLog (jobID : String) (lg : Pipeline.CommandLog) (s : AppState) :
    AppState :=
  (publishEvent s { jobId := jobID, type := .log, message := "Command completed", command := lg.command, args := lg.args, exitCode := lg.exitCode, stdout := lg.stdout, stderr := lg.stderr }).1

/-- `App.clearActiveJob`. -/
def clearActiveJob (jobID : String) (s : AppState) : AppState :=
  if s.activeJobID = jobID then
    { s with activeJobID := "", hasCancel := false }
  else s

/-- `App.StartTranscription` : generate the job id from the clock
reading `n` (`fmt.Sprintf("job-%d", time.Now().UnixNano())`), start the
manager job, record the cancellation bookkeeping, and publish the
status event (preprocessing, "Job started") synchronously — the
asynchronous pipeline task is launched only after this returns.
Returns the updated state and the job id. -/
def startTranscription (s : AppState) (n : Int) :
    Except JobError (AppState × String) :=
  let jobID := "job-" ++ toString n
  match Manager.start s.jobs jobID with
  | .error e => .error e
  | .ok j =>
    let s1 : AppState := { s with jobs := j, activeJobID := jobID, hasCancel := true }
    .ok (publishStatus s1 jobID .preprocessing "Job started", jobID)

/-- `PipelineError.Error()` : the formatted failure message. -/
def pipelineErrorMessage (e : Pipeline.PipelineError) : String :=
  if e.commandLog.command = "" then e.stage ++ ": " ++ e.message
  else e.stage ++ ": " ++ e.message ++ " (cmd=" ++ e.commandLog.command
    ++ " exit=" ++ toString e.commandLog.exitCode ++ ")"

/-- `App.CancelTranscription` : NoRunningJob when no cancellation token
is recorded; otherwise fire the token (its effect on the in-flight
pipeline is that the runner returns a cancellation-classified error),
best-effort cancel the manager job (tolerating NoRunningJob), and
publish the cancellation status event for the recorded job id. -/
def cancelTranscription (s : AppState) : Except JobError AppState :=
  if !s.hasCancel then .error .noRunningJob
  else
    match Manager.cancel s.jobs with
    | .ok j =>
      let s1 : AppState := { s with jobs := j }
      if s1.activeJobID ≠ "" then
        .ok (publishStatus s1 s1.activeJobID .cancelled
          "Cancellation requested")
      else .ok s1
    | .error e =>
      if e = .noRunningJob then
        if s.activeJobID ≠ "" then
          .ok (publishStatus s s.activeJobID .cancelled
            "Cancellation requested")
        else .ok s
      else .error e

/-- The failure branch of `runTranscriptionJob` : a cancellation-
classified failure transitions to cancelled and publishes a status
event; a genuine failure transitions to failed, publishes a status
event, an error event with the formatted message, and — when the
failure carries a CommandLog with a non-empty command — a replay log
event; both branches clear the active-job bookkeeping. -/
def handlePipelineFailure (jobID : String) (e : Pipeline.PipelineError)
    (s : AppState) : AppState :=
  if e.canceled then
    let s1 := match Manager.transition s.jobs .cancelled with
      | .ok j => { s with jobs := j }
      | .error _ => s
    let s2 := publishStatus s1 jobID .cancelled "Job cancelled"
    clearActiveJob jobID s2
  else
    let s1 := match Manager.transition s.jobs .failed with
      | .ok j => { s with jobs := j }
      | .error _ => s
    let s2 := publishStatus s1 jobID .failed "Job failed"
    let s3 := (publishEvent s2 { jobId := jobID, type := .error, status := some .failed, message := pipelineErrorMessage e }).1
    let s4 := if e.commandLog.command ≠ "" then
        (publishEvent s3 { jobId := jobID, type := .log, message := "Failed command", command := e.commandLog.command, args := e.commandLog.args, exitCode := e.commandLog.exitCode, stdout := e.commandLog.stdout, stderr := e.commandLog.stderr }).1
      else s3
    clearActiveJob jobID s4

/-- The orchestrator state just before cancellation in the
end-to-end cancellation scenario: a job started from the initial state
whose pipeline has emitted the preprocessing stage, the conversion log,
and the transcribing stage. -/
def preCancelState (n : Int) (ffmpegLog : Pipeline.CommandLog) :
    Except JobError (AppState × String) :=
  match startTranscription initialAppState n with
  | .error e => .error e
  | .ok (s1, jobID) =>
    let s2 := onStage jobID "preprocessing" s1
    let s3 := onLog jobID ffmpegLog s2
    let s4 := onStage jobID "transcribing" s3
    .ok (s4, jobID)

/-- The end-to-end cancellation scenario with the production pipeline
(`whisperPath = "whisper.cpp"`): cancel is invoked while the
transcription command is in flight. Firing the token makes
`exec.CommandContext` kill the child; `cmd.Run` then returns the killed
process's `*exec.ExitError` (Go's `Cmd.Wait` prefers the process-wait
error over the context error), which `execRunner.Run` forwards together
with the captured outcome `o`. The pipeline emits the whisper
CommandLog, removes the workspace, and fails with the
stage=transcribing error wrapping that runner error; `o.canceled`
models `errors.Is(runErr, context.Canceled)` on it, which is false for
a process that was killed while running. The failure branch of
`runTranscriptionJob` then handles the error. -/
def cancelDuringTranscribing (n : Int) (ffmpegLog : Pipeline.CommandLog)
    (wargs : List String) (o : Pipeline.CmdOutcome) :
    Except JobError AppState :=
  match preCancelState n ffmpegLog with
  | .error err => .error err
  | .ok (s4, jobID) =>
    match cancelTranscription s4 with
    | .error err => .error err
    | .ok s5 =>
      let whisperLog : Pipeline.CommandLog := { command := "whisper.cpp", args := wargs, exitCode := o.exitCode, stdout := o.stdout, stderr := o.stderr }
      let s6 := onLog jobID whisperLog s5
      let e : Pipeline.PipelineError := { stage := "transcribing", message := "whisper.cpp transcription failed", commandLog := whisperLog, canceled := o.canceled }
      .ok (handlePipelineFailure jobID e s6)

/-- Iterate `publishEvent` over a list of events (the publications the
asynchronous pipeline task performs after `StartTranscription`
returns). -/
def publishEvents (s : AppState) (l : List Event) : AppState :=
  l.foldl (fun acc e => (publishEvent acc e).1) s

/-- The event history produced by the cancel-while-transcribing
execution with the production runner: start, preprocessing stage,
conversion log, transcribing stage, cancellation request, the
transcription command log, and — because the killed process's error is
not classified as context cancellation — the failed-status event, the
error-type event, and the replayed failed-command log. -/
def cancellationHistory (n : Int) (ffmpegLog : Pipeline.CommandLog)
    (wargs : List String) (ec : Int) (sout serr : String) : List Event :=
  [{ seq := 1, jobId := "job-" ++ toString n, type := .status, status := some .preprocessing, message := "Job started" },
   { seq := 2, jobId := "job-" ++ toString n, type := .status, status := some .preprocessing, message := "Running preprocessing stage" },
   { seq := 3, jobId := "job-" ++ toString n, type := .log, message := "Command completed", command := ffmpegLog.command, args := ffmpegLog.args, exitCode := ffmpegLog.exitCode, stdout := ffmpegLog.stdout, stderr := ffmpegLog.stderr },
   { seq := 4, jobId := "job-" ++ toString n, type := .status, status := some .transcribing, message := "Running transcribing stage" },
   { seq := 5, jobId := "job-" ++ toString n, type := .status, status := some .cancelled, message := "Cancellation requested" },
   { seq := 6, jobId := "job-" ++ toString n, type := .log, message := "Command completed", command := "whisper.cpp", args := wargs, exitCode := ec, stdout := sout, stderr := serr },
   { seq := 7, jobId := "job-" ++ toString n, type := .status, status := some .failed, message := "Job failed" },
   { seq := 8, jobId := "job-" ++ toString n, type := .error, status := some .failed, message := "transcribing" ++ ": " ++ "whisper.cpp transcription failed" ++ " (cmd=" ++ "whisper.cpp" ++ " exit=" ++ toString ec ++ ")" },
   { seq := 9, jobId := "job-" ++ toString n, type := .log, message := "Failed command", command := "whisper.cpp", args := wargs, exitCode := ec, stdout := sout, stderr := serr }]

end App

/-! ## Theorems -/

namespace Manager

/-- In every reachable state, an empty job id forces status `idle`. -/
theorem reachable_empty_id_idle {s : Job} (h : Reachable s) :
    s.id = "" → s.status = .idle := by
  induction h with
  | init => intro _; rfl
  | start hr hne hok ih =>
      intro hid
      unfold start at hok
      split at hok
      · cases hok
      · cases hok; exact absurd hid hne
  | transition hr hok ih =>
      intro hid
      rename_i s tgt t
      unfold transition at hok
      split at hok
      · cases hok
      · split at hok
        · cases hok; exact ih hid
        · split at hok
          · cases hok
            rename_i hcond _ _
            simp only [not_and, ne_eq, not_not] at hcond
            exact hcond hid
          · cases hok
  | cancel hr hok ih =>
      intro hid
      unfold cancel at hok
      split at hok
      · cases hok
        rename_i s hrun
        have : s.status = .idle := ih hid
        rw [this] at hrun
        simp [isRunning] at hrun
      · cases hok
  | reset hr ih => intro _; rfl

/-- No edge of the transition table is a self-loop. -/
theorem isValidTransition_irrefl (f t : JobStatus)
    (h : isValidTransition f t = true) : t ≠ f := by
  revert h; cases f <;> cases t <;> decide

end Manager

/-- C1 counterexample: the ordered pair (preprocessing, preprocessing) is
not an edge of the transition table, and the state
`{id := "job-1", status := preprocessing}` is reached directly by
`Start("job-1")` from the initial state; yet `Transition(preprocessing)`
there succeeds as a no-op instead of failing with InvalidTransition.
Moreover, in the initial state (empty id, idle), the table edge
idle → preprocessing does not succeed: it fails with the usage error. -/
theorem C1_counterexample :
    Manager.isValidTransition .preprocessing .preprocessing = false ∧
    Manager.start Manager.initial "job-1" =
      .ok { id := "job-1", status := .preprocessing } ∧
    Manager.transition { id := "job-1", status := .preprocessing }
      .preprocessing = .ok { id := "job-1", status := .preprocessing } ∧
    Manager.transition Manager.initial .preprocessing =
      .error .noActiveJob :=
  ⟨rfl, rfl, rfl, rfl⟩

/-- C1 (amended): in every reachable manager state with a job id set,
`Transition` succeeds exactly on the edges of the table (setting the
status to the target), fails with InvalidTransition on every non-edge
pair with a distinct target, and is a no-op success on the current
status; in reachable states with no job id the status is always `idle`,
`Transition(idle)` is a no-op success, and `Transition(to ≠ idle)` fails
with the usage error rather than InvalidTransition. -/
theorem C1_transition_table (s : Job) (hr : Manager.Reachable s) :
    (s.id ≠ "" →
      (∀ t, Manager.isValidTransition s.status t = true →
        Manager.transition s t = .ok { s with status := t }) ∧
      (∀ t, t ≠ s.status → Manager.isValidTransition s.status t = false →
        Manager.transition s t = .error (.invalidTransition s.status t)) ∧
      Manager.transition s s.status = .ok s) ∧
    (s.id = "" →
      s.status = .idle ∧ Manager.transition s .idle = .ok s ∧
      ∀ t, t ≠ .idle → Manager.transition s t = .error .noActiveJob) := by
  constructor
  · intro hid
    refine ⟨?_, ?_, ?_⟩
    · intro t ht
      have hne : t ≠ s.status := Manager.isValidTransition_irrefl _ _ ht
      simp [Manager.transition, hid, hne, ht]
    · intro t hne hnv
      simp [Manager.transition, hid, hne, hnv]
    · simp [Manager.transition, hid]
  · intro hid
    have hidle : s.status = .idle := Manager.reachable_empty_id_idle hr hid
    refine ⟨hidle, ?_, ?_⟩
    · simp [Manager.transition, hidle]
    · intro t ht
      simp [Manager.transition, hid, ht]

/-- C1 witness: instantiating the amended theorem at the reachable state
`{id := "job-1", status := transcribing}`. -/
theorem C1_witness :
    Manager.transition { id := "job-1", status := .transcribing }
      .exporting = .ok { id := "job-1", status := .exporting } ∧
    Manager.transition { id := "job-1", status := .transcribing }
      .idle = .error (.invalidTransition .transcribing .idle) ∧
    Manager.transition { id := "job-1", status := .transcribing }
      .transcribing = .ok { id := "job-1", status := .transcribing } := by
  have h1 : Manager.Reachable { id := "job-1", status := .preprocessing } :=
    @Manager.Reachable.start _ _ "job-1" .init (by decide) rfl
  have h2 : Manager.Reachable { id := "job-1", status := .transcribing } :=
    @Manager.Reachable.transition _ _ .transcribing h1 rfl
  have h := (C1_transition_table _ h2).1 (by decide)
  exact ⟨h.1 .exporting (by decide), h.2.1 .idle (by decide) (by decide),
    h.2.2⟩

/-- C8: `Start(jobId)` fails with AlreadyRunning exactly when the current
status is preprocessing, transcribing, or exporting; in every other state
it succeeds and replaces the job record with
`{id := jobId, status := preprocessing}`. -/
theorem C8_start_exclusivity (s : Job) (jobID : String) :
    (Manager.start s jobID = .error .alreadyRunning ↔
      (s.status = .preprocessing ∨ s.status = .transcribing ∨
        s.status = .exporting)) ∧
    (¬(s.status = .preprocessing ∨ s.status = .transcribing ∨
        s.status = .exporting) →
      Manager.start s jobID = .ok { id := jobID, status := .preprocessing }) := by
  obtain ⟨i, st⟩ := s
  cases st <;> simp [Manager.start, Manager.isRunning]

/-- C8 witness: a start from idle succeeds with a fresh preprocessing
record; a start while transcribing fails with AlreadyRunning. -/
theorem C8_witness :
    Manager.start { id := "", status := .idle } "job-1" =
      .ok { id := "job-1", status := .preprocessing } ∧
    Manager.start { id := "job-1", status := .transcribing } "job-2" =
      .error .alreadyRunning := by
  refine ⟨(C8_start_exclusivity { id := "", status := .idle } "job-1").2
      (by decide), ?_⟩
  exact (C8_start_exclusivity
    { id := "job-1", status := .transcribing } "job-2").1.mpr (by decide)

/-- C9: `Cancel()` fails with NoRunningJob exactly when the current status
is not an active one; otherwise it succeeds setting the status to
cancelled; and after any successful Cancel, a second Cancel always fails
with NoRunningJob. -/
theorem C9_cancel_contract (s : Job) :
    (Manager.cancel s = .error .noRunningJob ↔
      ¬(s.status = .preprocessing ∨ s.status = .transcribing ∨
        s.status = .exporting)) ∧
    ((s.status = .preprocessing ∨ s.status = .transcribing ∨
        s.status = .exporting) →
      Manager.cancel s = .ok { s with status := .cancelled }) ∧
    (∀ t, Manager.cancel s = .ok t →
      Manager.cancel t = .error .noRunningJob) := by
  obtain ⟨i, st⟩ := s
  refine ⟨?_, ?_, ?_⟩
  · cases st <;> simp [Manager.cancel, Manager.isRunning]
  · cases st <;> simp [Manager.cancel, Manager.isRunning]
  · intro t ht
    cases st <;> simp [Manager.cancel, Manager.isRunning] at ht <;>
      simp [← ht, Manager.cancel, Manager.isRunning]

/-- C9 witness: cancelling a transcribing job succeeds and a second
cancel fails with NoRunningJob. -/
theorem C9_witness :
    Manager.cancel { id := "job-1", status := .transcribing } =
      .ok { id := "job-1", status := .cancelled } ∧
    Manager.cancel { id := "job-1", status := .cancelled } =
      .error .noRunningJob := by
  have h := C9_cancel_contract { id := "job-1", status := .transcribing }
  refine ⟨h.2.1 (by decide), ?_⟩
  exact h.2.2 { id := "job-1", status := .cancelled } (h.2.1 (by decide))

namespace EventBus

/-- Projections of one `Publish` step. -/
theorem publish_fst_maxEvents (b : EventBus) (e : Event) :
    (publish b e).1.maxEvents = b.maxEvents := rfl

theorem publish_fst_nextSeq (b : EventBus) (e : Event) :
    (publish b e).1.nextSeq = b.nextSeq + 1 := rfl

theorem publish_snd (b : EventBus) (e : Event) :
    (publish b e).2 = { e with seq := b.nextSeq + 1 } := rfl

/-- One `Publish` trim step: appending the finalized event to a buffer
that is the length-bounded suffix of the history `h` yields the
length-bounded suffix of `h ++ [e]`. -/
theorem trim_step (h : List Event) (e : Event) (m : Nat) (hm : 0 < m) :
    (if (h.drop (h.length - m) ++ [e]).length > m then
      (h.drop (h.length - m) ++ [e]).drop
        ((h.drop (h.length - m) ++ [e]).length - m)
    else h.drop (h.length - m) ++ [e]) =
    (h ++ [e]).drop (h.length + 1 - m) := by
  have hlen : (h.drop (h.length - m)).length = h.length - (h.length - m) :=
    List.length_drop _ _
  by_cases hnm : m ≤ h.length
  · have h1 : (h.drop (h.length - m) ++ [e]).length = m + 1 := by
      rw [List.length_append, hlen]; simp; omega
    rw [h1, if_pos (Nat.lt_succ_self m)]
    have h2 : m + 1 - m = 1 := by omega
    rw [h2, List.drop_append_of_le_length (by omega), List.drop_drop,
      List.drop_append_of_le_length (by omega : h.length + 1 - m ≤ h.length)]
    congr 2
    omega
  · have h0 : h.length - m = 0 := by omega
    rw [h0, List.drop_zero,
      if_neg (by rw [List.length_append]; simp; omega),
      show h.length + 1 - m = 0 by omega, List.drop_zero]

/-- Characterization of iterated `Publish`: starting from a bus whose
buffer is the bounded suffix of a publish history `h`, the finalized
events are the input events with sequence numbers assigned consecutively
from `nextSeq + 1`, and the final buffer is the bounded suffix of the
extended history. -/
theorem publishAllOut_spec (l : List Event) :
    ∀ (b : EventBus) (h : List Event),
      0 < b.maxEvents →
      b.events = h.drop (h.length - b.maxEvents) →
      (publishAllOut b l).1.maxEvents = b.maxEvents ∧
      (publishAllOut b l).1.nextSeq = b.nextSeq + l.length ∧
      (publishAllOut b l).2 = annotateFrom b.nextSeq l ∧
      (publishAllOut b l).1.events =
        (h ++ (publishAllOut b l).2).drop
          ((h ++ (publishAllOut b l).2).length - b.maxEvents) := by
  induction l with
  | nil =>
      intro b h hm hev
      refine ⟨rfl, by simp [publishAllOut], rfl, ?_⟩
      simpa [publishAllOut] using hev
  | cons e rest ih =>
      intro b h hm hev
      have hpub : (publish b e).1.events =
          (h ++ [(publish b e).2]).drop
            ((h ++ [(publish b e).2]).length - b.maxEvents) := by
        show (if (b.events ++ [(publish b e).2]).length > b.maxEvents then
            (b.events ++ [(publish b e).2]).drop
              ((b.events ++ [(publish b e).2]).length - b.maxEvents)
          else b.events ++ [(publish b e).2]) = _
        rw [hev, show (h ++ [(publish b e).2]).length = h.length + 1 by simp]
        exact trim_step h (publish b e).2 b.maxEvents hm
      have hstep := ih (publish b e).1 (h ++ [(publish b e).2]) hm hpub
      rw [publish_fst_maxEvents] at hstep
      simp only [publishAllOut]
      refine ⟨hstep.1, ?_, ?_, ?_⟩
      · rw [hstep.2.1, publish_fst_nextSeq]
        simp only [List.length_cons]
        push_cast
        ring
      · rw [hstep.2.2.1, publish_fst_nextSeq, publish_snd]
        rfl
      · rw [hstep.2.2.2]
        simp [List.append_assoc]

/-- `annotateFrom` preserves length. -/
theorem annotateFrom_length (k : Int) (l : List Event) :
    (annotateFrom k l).length = l.length := by
  induction l generalizing k with
  | nil => rfl
  | cons e rest ih => simp [annotateFrom, ih]

/-- Every sequence number assigned from `k` onward exceeds `k`. -/
theorem annotateFrom_seq_gt (k : Int) (l : List Event) :
    ∀ e ∈ annotateFrom k l, k < e.seq := by
  induction l generalizing k with
  | nil => intro e he; cases he
  | cons x rest ih =>
      intro e he
      simp only [annotateFrom, List.mem_cons] at he
      rcases he with rfl | he
      · simp
      · have := ih (k + 1) e he
        omega

/-- Assigned sequence numbers are strictly increasing along the history. -/
theorem annotateFrom_pairwise (k : Int) (l : List Event) :
    (annotateFrom k l).Pairwise (fun a b => a.seq < b.seq) := by
  induction l generalizing k with
  | nil => exact List.Pairwise.nil
  | cons x rest ih =>
      refine List.Pairwise.cons ?_ (ih (k + 1))
      intro e he
      have := annotateFrom_seq_gt (k + 1) rest e he
      simp only
      omega

/-- The assigned sequence numbers are exactly `k+1, k+2, ...`. -/
theorem annotateFrom_map_seq (k : Int) (l : List Event) :
    (annotateFrom k l).map (fun e => e.seq) =
      (List.range l.length).map (fun i : Nat => k + (i : Int) + 1) := by
  induction l generalizing k with
  | nil => rfl
  | cons x rest ih =>
      simp only [annotateFrom, List.map_cons, List.length_cons,
        List.range_succ_eq_map, List.map_map, ih, List.cons.injEq]
      constructor
      · push_cast; ring
      · apply List.map_congr_left
        intro i _
        simp only [Function.comp_apply]
        push_cast
        ring

/-- `Since` is the filter of the retained buffer (the empty-buffer branch
of the Go code returns nil, which filtering also yields). -/
theorem since_eq_filter (b : EventBus) (s : Int) :
    since b s = b.events.filter (fun e => s < e.seq) := by
  unfold since
  split
  · rename_i hlen
    rw [List.length_eq_zero] at hlen
    rw [hlen]
    rfl
  · rfl

/-- The capacity stored by `NewEventBus` is always positive. -/
theorem newEventBus_maxEvents_pos (n : Int) :
    0 < (newEventBus n).maxEvents := by
  unfold newEventBus
  dsimp only
  split
  · omega
  · rename_i hn
    omega

/-- For a positive requested capacity, `NewEventBus` stores it as given. -/
theorem newEventBus_maxEvents_of_pos (n : Int) (hn : 0 < n) :
    (newEventBus n).maxEvents = n.toNat := by
  unfold newEventBus
  dsimp only
  rw [if_neg (by omega)]

/-- `publishAllOut_spec` instantiated at a fresh bus. -/
theorem publishAllOut_new_spec (n : Int) (l : List Event) :
    (publishAllOut (newEventBus n) l).1.maxEvents =
      (newEventBus n).maxEvents ∧
    (publishAllOut (newEventBus n) l).2 = annotateFrom 0 l ∧
    (publishAllOut (newEventBus n) l).1.events =
      (publishAllOut (newEventBus n) l).2.drop
        ((publishAllOut (newEventBus n) l).2.length -
          (newEventBus n).maxEvents) := by
  have h := publishAllOut_spec l (newEventBus n) []
    (newEventBus_maxEvents_pos n) (by simp [newEventBus])
  exact ⟨h.1, by simpa using h.2.2.1, by simpa using h.2.2.2⟩

end EventBus

/-- C3: for any sequence of events published into a fresh bus and any
`s ≥ 0`, `Since(s)` returns exactly the retained events with sequence
strictly greater than `s`, in ascending sequence order; and after
publishing more than `n` events into a bus of positive capacity `n`,
`Since(0)` returns exactly the last `n` published events, oldest
first. -/
theorem C3_since_read_and_trim (n : Int) (l : List Event) :
    (∀ s : Int, 0 ≤ s →
      EventBus.since (EventBus.publishAllOut (EventBus.newEventBus n) l).1
          s =
        (EventBus.publishAllOut (EventBus.newEventBus n) l).1.events.filter
          (fun e => s < e.seq) ∧
      (EventBus.since (EventBus.publishAllOut (EventBus.newEventBus n) l).1
          s).Pairwise (fun a b => a.seq < b.seq)) ∧
    (0 < n → n.toNat < l.length →
      EventBus.since (EventBus.publishAllOut (EventBus.newEventBus n) l).1
          0 =
        (EventBus.publishAllOut (EventBus.newEventBus n) l).2.drop
          (l.length - n.toNat) ∧
      (EventBus.since (EventBus.publishAllOut (EventBus.newEventBus n) l).1
          0).length = n.toNat) := by
  have hs := EventBus.publishAllOut_new_spec n l
  have hpw : (EventBus.publishAllOut (EventBus.newEventBus n)
      l).1.events.Pairwise (fun a b => a.seq < b.seq) := by
    rw [hs.2.2, hs.2.1]
    exact (EventBus.annotateFrom_pairwise 0 l).drop
  have hgt : ∀ e ∈ (EventBus.publishAllOut (EventBus.newEventBus n)
      l).1.events, 0 < e.seq := by
    intro e he
    rw [hs.2.2, hs.2.1] at he
    exact EventBus.annotateFrom_seq_gt 0 l e (List.drop_subset _ _ he)
  constructor
  · intro s _
    refine ⟨EventBus.since_eq_filter _ s, ?_⟩
    rw [EventBus.since_eq_filter]
    exact hpw.filter _
  · intro hn hlt
    have hmax : (EventBus.newEventBus n).maxEvents = n.toNat :=
      EventBus.newEventBus_maxEvents_of_pos n hn
    have hlen : (EventBus.publishAllOut (EventBus.newEventBus n)
        l).2.length = l.length := by
      rw [hs.2.1]; exact EventBus.annotateFrom_length 0 l
    have hev : EventBus.since (EventBus.publishAllOut
        (EventBus.newEventBus n) l).1 0 =
        (EventBus.publishAllOut (EventBus.newEventBus n) l).1.events := by
      rw [EventBus.since_eq_filter]
      exact List.filter_eq_self.mpr (fun e he => by
        simpa using hgt e he)
    refine ⟨?_, ?_⟩
    · rw [hev, hs.2.2, hmax, hlen]
    · rw [hev, hs.2.2, hmax, hlen, List.length_drop, hlen]
      omega

/-- C3 witness: the Go test scenario — capacity 2, three publishes;
`Since(1)` filters the buffer, and `Since(0)` is the last two published
events. -/
theorem C3_witness :
    ((0 : Int) ≤ 1 ∧
      EventBus.since (EventBus.publishAllOut (EventBus.newEventBus 2)
          [{ message := "1" }, { message := "2" }, { message := "3" }]).1
          1 =
        (EventBus.publishAllOut (EventBus.newEventBus 2)
          [{ message := "1" }, { message := "2" },
            { message := "3" }]).1.events.filter
          (fun e => (1 : Int) < e.seq)) ∧
    ((0 : Int) < 2 ∧ (2 : Int).toNat < 3 ∧
      EventBus.since (EventBus.publishAllOut (EventBus.newEventBus 2)
          [{ message := "1" }, { message := "2" }, { message := "3" }]).1
          0 =
        (EventBus.publishAllOut (EventBus.newEventBus 2)
          [{ message := "1" }, { message := "2" },
            { message := "3" }]).2.drop 1) :=
  ⟨⟨by norm_num,
    ((C3_since_read_and_trim 2
      [{ message := "1" }, { message := "2" }, { message := "3" }]).1 1
      (by norm_num)).1⟩,
   ⟨by norm_num, by norm_num,
    ((C3_since_read_and_trim 2
      [{ message := "1" }, { message := "2" }, { message := "3" }]).2
      (by norm_num) (by norm_num)).1⟩⟩

/-- C4: for every requested capacity and every sequence of publishes into
a fresh bus, the assigned sequence numbers are exactly 1, 2, 3, ... in
publish order, and the retained buffer is a contiguous suffix of the
publish history. -/
theorem C4_sequence_numbers (n : Int) (l : List Event) :
    ((EventBus.publishAllOut (EventBus.newEventBus n) l).2.map
        (fun e => e.seq) =
      (List.range l.length).map (fun i : Nat => (i : Int) + 1)) ∧
    ((EventBus.publishAllOut (EventBus.newEventBus n) l).1.events =
      (EventBus.publishAllOut (EventBus.newEventBus n) l).2.drop
        ((EventBus.publishAllOut (EventBus.newEventBus n) l).2.length -
          (EventBus.publishAllOut (EventBus.newEventBus n)
            l).1.maxEvents)) := by
  have hs := EventBus.publishAllOut_new_spec n l
  refine ⟨?_, ?_⟩
  · rw [hs.2.1, EventBus.annotateFrom_map_seq]
    apply List.map_congr_left
    intro i _
    omega
  · rw [hs.1]
    exact hs.2.2

/-- `charListLess` is irreflexive. -/
theorem charListLess_irrefl (a : List Char) : charListLess a a = false := by
  induction a with
  | nil => rfl
  | cons x xs ih => simp [charListLess, ih]

/-- `charListLess` is asymmetric. -/
theorem charListLess_asymm (a : List Char) :
    ∀ b, charListLess a b = true → charListLess b a = false := by
  induction a with
  | nil =>
      intro b hb
      cases b with
      | nil => simp [charListLess] at hb
      | cons y ys => rfl
  | cons x xs ih =>
      intro b hb
      cases b with
      | nil => simp [charListLess] at hb
      | cons y ys =>
          simp only [charListLess, Bool.or_eq_true, Bool.and_eq_true,
            decide_eq_true_eq] at hb
          rcases hb with hlt | ⟨heq, hrec⟩
          · simp [charListLess, lt_asymm hlt, hlt.ne']
          · subst heq
            simp [charListLess, lt_irrefl, ih ys hrec]

/-- `charListLess` is negatively transitive. -/
theorem charListLess_negtrans (a : List Char) :
    ∀ b c, charListLess a b = false → charListLess b c = false →
      charListLess a c = false := by
  induction a with
  | nil =>
      intro b c hab hbc
      cases c with
      | nil => rfl
      | cons z zs =>
          cases b with
          | nil => simp [charListLess] at hbc
          | cons y ys => simp [charListLess] at hab
  | cons x xs ih =>
      intro b c hab hbc
      cases c with
      | nil => rfl
      | cons z zs =>
          cases b with
          | nil => simp [charListLess] at hbc
          | cons y ys =>
              simp only [charListLess, Bool.or_eq_false_iff,
                Bool.and_eq_false_iff, decide_eq_false_iff_not,
                decide_eq_true_eq] at hab hbc ⊢
              have hyx : y ≤ x := not_lt.mp hab.1
              have hzy : z ≤ y := not_lt.mp hbc.1
              refine ⟨not_lt.mpr (hzy.trans hyx), ?_⟩
              by_cases hxz : x = z
              · subst hxz
                have hxy : y = x := le_antisymm hyx (hzy.trans_eq rfl)
                subst hxy
                rcases hab.2 with h | h
                · exact absurd rfl h
                · rcases hbc.2 with h2 | h2
                  · exact absurd rfl h2
                  · exact Or.inr (ih ys zs h h2)
              · exact Or.inl hxz

/-- Membership in `insertSorted`. -/
theorem mem_insertSorted (x y : String) (l : List String) :
    y ∈ insertSorted x l ↔ y = x ∨ y ∈ l := by
  induction l with
  | nil => simp [insertSorted]
  | cons z rest ih =>
      simp only [insertSorted]
      split
      · simp only [List.mem_cons, ih]
        tauto
      · simp [List.mem_cons]

/-- `insertSorted` never returns the empty list. -/
theorem insertSorted_ne_nil (x : String) (l : List String) :
    insertSorted x l ≠ [] := by
  cases l with
  | nil => simp [insertSorted]
  | cons y rest =>
      simp only [insertSorted]
      split <;> simp

/-- `sortStrings` returns the empty list only on the empty list. -/
theorem sortStrings_eq_nil (l : List String) :
    sortStrings l = [] ↔ l = [] := by
  cases l with
  | nil => simp [sortStrings]
  | cons x rest => simp [sortStrings, insertSorted_ne_nil]

/-- The head of `sortStrings` on a non-empty list is a member that no
other member precedes lexicographically. -/
theorem sortStrings_headI_min (l : List String) (hne : l ≠ []) :
    (sortStrings l).headI ∈ l ∧
    ∀ x ∈ l, charListLess x.data (sortStrings l).headI.data = false := by
  induction l with
  | nil => exact absurd rfl hne
  | cons a rest ih =>
      by_cases hrest : rest = []
      · subst hrest
        refine ⟨by simp [sortStrings, insertSorted], ?_⟩
        intro x hx
        simp only [List.mem_singleton] at hx
        subst hx
        simp [sortStrings, insertSorted, charListLess_irrefl]
      · obtain ⟨hmem, hmin⟩ := ih hrest
        rcases hseq : sortStrings rest with _ | ⟨m, tail⟩
        · exact absurd ((sortStrings_eq_nil rest).mp hseq) hrest
        · rw [hseq] at hmem hmin
          simp only [List.headI] at hmem hmin
          have hsort : sortStrings (a :: rest) =
              insertSorted a (m :: tail) := by
            show insertSorted a (sortStrings rest) = _
            rw [hseq]
          rw [hsort]
          simp only [insertSorted]
          split
          · rename_i hma
            simp only [List.headI]
            refine ⟨List.mem_cons_of_mem _ hmem, ?_⟩
            intro x hx
            rcases List.mem_cons.mp hx with rfl | hx
            · exact charListLess_asymm _ _ hma
            · exact hmin x hx
          · rename_i hma
            simp only [List.headI]
            refine ⟨List.mem_cons_self _ _, ?_⟩
            intro x hx
            rcases List.mem_cons.mp hx with rfl | hx
            · exact charListLess_irrefl _
            · exact charListLess_negtrans _ _ _ (hmin x hx)
                (by simpa using hma)

/-- C5 counterexample: for the value " en " (non-empty, not
whitespace-only, not "auto" after trimming) the argument list carries
the language flag with the trimmed value "en", not with " en "
exactly. -/
theorem C5_counterexample :
    Pipeline.buildWhisperArgs "model.bin" "audio.wav" "out/clip" " en " =
      ["-m", "model.bin", "-f", "audio.wav", "-of", "out/clip", "-otxt",
        "-l", "en"] ∧
    " en " ∉ Pipeline.buildWhisperArgs "model.bin" "audio.wav" "out/clip"
      " en " := by
  exact ⟨rfl, by decide⟩

/-- C5 (amended): whenever the language value is empty, whitespace-only,
or case-insensitively "auto" after trimming, the whisper argument list
is exactly the flagless base list; for every other value the list is the
base list extended with the language flag carrying the trimmed value. -/
theorem C5_language_flag (modelPath audioPath textBase lang : String) :
    (goTrimSpace lang = "" ∨ equalFold (goTrimSpace lang) "auto" = true →
      Pipeline.buildWhisperArgs modelPath audioPath textBase lang =
        ["-m", modelPath, "-f", audioPath, "-of", textBase, "-otxt"]) ∧
    (goTrimSpace lang ≠ "" → equalFold (goTrimSpace lang) "auto" = false →
      Pipeline.buildWhisperArgs modelPath audioPath textBase lang =
        ["-m", modelPath, "-f", audioPath, "-of", textBase, "-otxt",
          "-l", goTrimSpace lang]) := by
  constructor
  · intro h
    have hnorm : Pipeline.normalizeLanguage lang = "" := by
      unfold Pipeline.normalizeLanguage
      rcases h with h | h
      · rw [if_pos]
        simp [h]
      · rw [if_pos]
        simp [h]
    simp [Pipeline.buildWhisperArgs, hnorm]
  · intro h1 h2
    have hnorm : Pipeline.normalizeLanguage lang = goTrimSpace lang := by
      unfold Pipeline.normalizeLanguage
      rw [if_neg]
      simp [h1, h2]
    simp [Pipeline.buildWhisperArgs, hnorm, h1]

/-- C5 witness: "AUTO" yields no language flag; "en" yields the flag
with value "en". -/
theorem C5_witness :
    Pipeline.buildWhisperArgs "m.bin" "a.wav" "base" "AUTO" =
      ["-m", "m.bin", "-f", "a.wav", "-of", "base", "-otxt"] ∧
    Pipeline.buildWhisperArgs "m.bin" "a.wav" "base" "en" =
      ["-m", "m.bin", "-f", "a.wav", "-of", "base", "-otxt", "-l",
        "en"] := by
  constructor
  · exact (C5_language_flag "m.bin" "a.wav" "base" "AUTO").1
      (Or.inr (by decide))
  · exact (C5_language_flag "m.bin" "a.wav" "base" "en").2
      (by decide) (by decide)

/-- C6: model resolution. For a trimmed model path: a regular file
resolves to itself; a directory resolves to the directory joined with
the lexicographically smallest candidate name (non-directory entries
with case-insensitive `.bin`/`.gguf` extension); resolution fails when
there is no candidate, when the path is empty, or when it is
inaccessible; and any resolution failure makes `Run` return an error
tagged stage "transcribing". -/
theorem C6_model_resolution (env : Pipeline.PipelineEnv) (p : String)
    (htrim : goTrimSpace p = p) :
    (p ≠ "" → env.stat p = some { isDir := false } →
      Pipeline.resolveModelPath env p = .ok p) ∧
    (∀ entries, p ≠ "" → env.stat p = some { isDir := true } →
      env.readDir p = some entries →
      (Pipeline.modelCandidates entries ≠ [] →
        ∃ m, Pipeline.resolveModelPath env p =
            .ok (filepathJoin p m) ∧
          m ∈ Pipeline.modelCandidates entries ∧
          ∀ x ∈ Pipeline.modelCandidates entries,
            charListLess x.data m.data = false) ∧
      (Pipeline.modelCandidates entries = [] →
        Pipeline.resolveModelPath env p =
          .error ("no .bin or .gguf model files found in: " ++ p))) ∧
    (p = "" →
      Pipeline.resolveModelPath env p = .error "model path is required") ∧
    (p ≠ "" → env.stat p = none →
      Pipeline.resolveModelPath env p =
        .error ("cannot access model path: " ++ p)) ∧
    (∀ ffmpegPath whisperPath req msg fi, req.modelPath = p →
      goTrimSpace req.inputPath ≠ "" →
      env.stat req.inputPath = some fi →
      Pipeline.resolveModelPath env p = .error msg →
      (Pipeline.run env ffmpegPath whisperPath req).1 =
        .error { stage := "transcribing", message := msg }) := by
  refine ⟨?_, ?_, ?_, ?_, ?_⟩
  · intro hne hstat
    unfold Pipeline.resolveModelPath
    rw [htrim, if_neg hne, hstat]
    rfl
  · intro entries hne hstat hdir
    have hres : ∀ hcand : Pipeline.modelCandidates entries ≠ [],
        Pipeline.resolveModelPath env p =
          .ok (filepathJoin p
            (sortStrings (Pipeline.modelCandidates entries)).headI) := by
      intro hcand
      unfold Pipeline.resolveModelPath
      rw [htrim, if_neg hne, hstat, hdir]
      simp only []
      rw [if_neg hcand]
      simp
    constructor
    · intro hcand
      obtain ⟨hmem, hmin⟩ :=
        sortStrings_headI_min (Pipeline.modelCandidates entries) hcand
      exact ⟨_, hres hcand, hmem, hmin⟩
    · intro hcand
      unfold Pipeline.resolveModelPath
      rw [htrim, if_neg hne, hstat, hdir]
      simp only []
      rw [if_pos hcand]
      simp
  · intro hp
    unfold Pipeline.resolveModelPath
    rw [htrim, if_pos hp]
  · intro hne hstat
    unfold Pipeline.resolveModelPath
    rw [htrim, if_neg hne, hstat]
  · intro ffmpegPath whisperPath req msg fi hreq hin hstatin hres
    unfold Pipeline.run
    rw [if_neg hin, hstatin, hreq, hres]

/-- C6 witness: on a directory holding exactly `a-small.gguf` and
`z-large.bin`, resolution picks `a-small.gguf`. -/
theorem C6_witness :
    goTrimSpace "models" = "models" ∧
    "models" ≠ "" ∧
    modelDirEnv.stat "models" = some { isDir := true } ∧
    (∃ m, Pipeline.resolveModelPath modelDirEnv "models" =
        .ok (filepathJoin "models" m) ∧
      m ∈ Pipeline.modelCandidates
        [{ name := "z-large.bin", isDir := false },
          { name := "a-small.gguf", isDir := false }] ∧
      ∀ x ∈ Pipeline.modelCandidates
        [{ name := "z-large.bin", isDir := false },
          { name := "a-small.gguf", isDir := false }],
        charListLess x.data m.data = false) ∧
    Pipeline.resolveModelPath modelDirEnv "models" =
      .ok "models/a-small.gguf" := by
  refine ⟨rfl, by decide, rfl, ?_, rfl⟩
  exact (((C6_model_resolution modelDirEnv "models" rfl).2.1
    [{ name := "z-large.bin", isDir := false },
      { name := "a-small.gguf", isDir := false }]
    (by decide) rfl rfl).1 (by decide))

/-- C7: once `Run` has passed validation and created the workspace
`d`, every failure outcome removes `d`; and a conversion-tool failure
yields the stage=preprocessing error carrying the conversion
CommandLog (exit code included) while removing `d`. `ffargs`/`fout`
name the conversion command's arguments and outcome. -/
theorem C7_failure_cleanup (env : Pipeline.PipelineEnv)
    (ffmpegPath whisperPath : String) (req : Pipeline.Request)
    (d mp : String) (fi : Pipeline.FileInfo) (ffargs : List String)
    (fout : Pipeline.CmdOutcome)
    (h1 : goTrimSpace req.inputPath ≠ "")
    (h2 : env.stat req.inputPath = some fi)
    (h3 : Pipeline.resolveModelPath env req.modelPath = .ok mp)
    (h4 : goTrimSpace req.outputDir ≠ "")
    (h5 : env.mkdirAll req.outputDir = true)
    (h6 : env.mkdirTemp = some d)
    (hfa : ffargs = Pipeline.buildFFmpegArgs req.inputPath
      (filepathJoin d "preprocessed-16k-mono.wav"))
    (hfo : env.run ffmpegPath ffargs = fout) :
    (∀ e, (Pipeline.run env ffmpegPath whisperPath req).1 = .error e →
      d ∈ (Pipeline.run env ffmpegPath whisperPath req).2.removed) ∧
    (fout.failed = true →
      (Pipeline.run env ffmpegPath whisperPath req).1 = .error
        { stage := "preprocessing",
          message := "ffmpeg audio conversion failed",
          commandLog := { command := ffmpegPath, args := ffargs,
                          exitCode := fout.exitCode,
                          stdout := fout.stdout,
                          stderr := fout.stderr },
          canceled := fout.canceled } ∧
      d ∈ (Pipeline.run env ffmpegPath whisperPath req).2.removed) := by
  subst hfa
  subst hfo
  have hcond : ¬((!true : Bool) = true) := by decide
  constructor
  · intro e he
    unfold Pipeline.run at he ⊢
    rw [if_neg h1, h2] at he ⊢
    dsimp only at he ⊢
    rw [h3] at he ⊢
    dsimp only at he ⊢
    rw [if_neg h4, h5, if_neg hcond, h6] at he ⊢
    dsimp only at he ⊢
    by_cases hf : (env.run ffmpegPath (Pipeline.buildFFmpegArgs
        req.inputPath (filepathJoin d "preprocessed-16k-mono.wav"))).failed =
        true
    · rw [if_pos hf]
      simp
    · rw [if_neg hf] at he ⊢
      cases hso : env.stat (filepathJoin d "preprocessed-16k-mono.wav") with
      | none =>
          dsimp only
          simp
      | some fo =>
          rw [hso] at he
          dsimp only at he ⊢
          by_cases hw : (env.run whisperPath (Pipeline.buildWhisperArgs mp
              (filepathJoin d "preprocessed-16k-mono.wav")
              (trimSuffix (filepathJoin req.outputDir
                  (Pipeline.transcriptFileName req.inputPath))
                (filepathExt (filepathJoin req.outputDir
                  (Pipeline.transcriptFileName req.inputPath))))
              req.language)).failed = true
          · rw [if_pos hw]
            simp
          · rw [if_neg hw] at he ⊢
            cases hst : env.stat (filepathJoin req.outputDir
                (Pipeline.transcriptFileName req.inputPath)) with
            | none =>
                dsimp only
                simp
            | some ft =>
                rw [hst] at he
                dsimp only at he ⊢
                cases hrf : env.readFile (filepathJoin req.outputDir
                    (Pipeline.transcriptFileName req.inputPath)) with
                | none =>
                    dsimp only
                    simp
                | some content =>
                    rw [hrf] at he
                    dsimp only at he
                    cases he
  · intro hf
    unfold Pipeline.run
    rw [if_neg h1, h2]
    dsimp only
    rw [h3]
    dsimp only
    rw [if_neg h4, h5, if_neg hcond, h6]
    dsimp only
    rw [if_pos hf]
    exact ⟨rfl, by simp⟩

/-- C7 witness: with valid input and a conversion tool failing with exit
code 1, `Run` returns the stage=preprocessing error carrying exit code 1
and removes the workspace. -/
theorem C7_witness :
    goTrimSpace "in.mp4" ≠ "" ∧
    ffmpegFailEnv.mkdirTemp = some "/tmp/ws" ∧
    (Pipeline.run ffmpegFailEnv "ffmpeg" "whisper.cpp"
      { inputPath := "in.mp4", modelPath := "model.bin",
        language := "auto", outputDir := "out" }).1 = .error
      { stage := "preprocessing",
        message := "ffmpeg audio conversion failed",
        commandLog := { command := "ffmpeg",
                        args := Pipeline.buildFFmpegArgs "in.mp4"
                          (filepathJoin "/tmp/ws"
                            "preprocessed-16k-mono.wav"),
                        exitCode := 1, stdout := "", stderr := "boom" },
        canceled := false } ∧
    "/tmp/ws" ∈ (Pipeline.run ffmpegFailEnv "ffmpeg" "whisper.cpp"
      { inputPath := "in.mp4", modelPath := "model.bin",
        language := "auto", outputDir := "out" }).2.removed := by
  refine ⟨by decide, rfl, ?_⟩
  exact (C7_failure_cleanup ffmpegFailEnv "ffmpeg" "whisper.cpp"
    { inputPath := "in.mp4", modelPath := "model.bin",
      language := "auto", outputDir := "out" }
    "/tmp/ws" "model.bin" { isDir := false }
    (Pipeline.buildFFmpegArgs "in.mp4"
      (filepathJoin "/tmp/ws" "preprocessed-16k-mono.wav"))
    { stderr := "boom", exitCode := 1, failed := true }
    (by decide) rfl rfl (by decide) rfl rfl rfl rfl).2 rfl

/-- Job ids generated by `StartTranscription` are never empty. -/
theorem jobIdString_ne_empty (n : Int) : ("job-" ++ toString n) ≠ "" := by
  intro h
  have hlen := congrArg String.length h
  rw [String.length_append] at hlen
  have h4 : ("job-" : String).length = 4 := rfl
  have h0 : ("" : String).length = 0 := rfl
  omega

/-- The cancel-while-transcribing execution evaluates to the expected
final state: the manager ends cancelled (the failed-branch
`Transition(failed)` from cancelled is invalid and ignored), but the
failed branch publishes the failed-status, error, and replay-log
events. -/
theorem cancelDuringTranscribing_eq (n : Int)
    (ffmpegLog : Pipeline.CommandLog) (wargs : List String)
    (ec : Int) (sout serr : String) :
    App.cancelDuringTranscribing n ffmpegLog wargs
        { exitCode := ec, stdout := sout, stderr := serr, failed := true, canceled := false } =
      .ok { jobs := { id := "job-" ++ toString n, status := .cancelled },
            bus := { nextSeq := 9, maxEvents := 1000, events := App.cancellationHistory n ffmpegLog wargs ec sout serr },
            history := App.cancellationHistory n ffmpegLog wargs ec sout serr,
            activeJobID := "", hasCancel := false } := by
  have hne := jobIdString_ne_empty n
  simp [App.cancelDuringTranscribing, App.preCancelState,
    App.startTranscription, App.initialAppState, Manager.initial,
    Manager.start, Manager.isRunning, App.publishStatus, App.publishEvent,
    EventBus.publish, EventBus.newEventBus, App.onStage,
    App.mapStageToStatus, Manager.transition, Manager.isValidTransition,
    App.onLog, App.cancelTranscription, Manager.cancel,
    App.handlePipelineFailure, App.pipelineErrorMessage,
    App.clearActiveJob, hne, App.cancellationHistory]

/-- The pre-cancellation state of the scenario has status transcribing:
cancellation is requested while the job is in `transcribing`. -/
theorem preCancelState_eq (n : Int) (ffmpegLog : Pipeline.CommandLog) :
    App.preCancelState n ffmpegLog =
      .ok ({ jobs := { id := "job-" ++ toString n, status := .transcribing },
             bus := { nextSeq := 4, maxEvents := 1000, events := (App.cancellationHistory n ffmpegLog [] 0 "" "").take 4 },
             history := (App.cancellationHistory n ffmpegLog [] 0 "" "").take 4,
             activeJobID := "job-" ++ toString n, hasCancel := true },
           "job-" ++ toString n) := by
  have hne := jobIdString_ne_empty n
  simp [App.preCancelState, App.startTranscription, App.initialAppState,
    Manager.initial, Manager.start, Manager.isRunning, App.publishStatus,
    App.publishEvent, EventBus.publish, EventBus.newEventBus, App.onStage,
    App.mapStageToStatus, Manager.transition, Manager.isValidTransition,
    App.onLog, hne, App.cancellationHistory]

/-- C2 (code evaluated at the failing input): CancelTranscription fires
while the job is transcribing and the transcription process is killed,
so `cmd.Run` yields the process's exit error, not `context.Canceled`
(`canceled := false` in the forwarded outcome). The job does reach the
single final status cancelled and a cancellation status event is
published — but, contrary to the claim, the failure branch also
publishes an error-type event carrying the job's id. -/
theorem C2_cancel_publishes_error_event (n : Int)
    (ffmpegLog : Pipeline.CommandLog) (wargs : List String)
    (ec : Int) (sout serr : String) :
    ∃ s, App.cancelDuringTranscribing n ffmpegLog wargs
        { exitCode := ec, stdout := sout, stderr := serr, failed := true, canceled := false } = .ok s ∧
      s.jobs.status = .cancelled ∧
      (∃ ev ∈ s.history, ev.jobId = "job-" ++ toString n ∧
        ev.type = .status ∧ ev.status = some .cancelled) ∧
      (∃ ev ∈ s.history, ev.jobId = "job-" ++ toString n ∧
        ev.type = .error) ∧
      (∀ s4 jobID, App.preCancelState n ffmpegLog = .ok (s4, jobID) →
        s4.jobs.status = .transcribing) := by
  refine ⟨_, cancelDuringTranscribing_eq n ffmpegLog wargs ec sout serr,
    rfl, ?_, ?_, ?_⟩
  · exact ⟨{ seq := 5, jobId := "job-" ++ toString n, type := .status, status := some .cancelled, message := "Cancellation requested" },
      by simp [App.cancellationHistory], rfl, rfl, rfl⟩
  · exact ⟨{ seq := 8, jobId := "job-" ++ toString n, type := .error, status := some .failed, message := "transcribing" ++ ": " ++ "whisper.cpp transcription failed" ++ " (cmd=" ++ "whisper.cpp" ++ " exit=" ++ toString ec ++ ")" },
      by simp [App.cancellationHistory], rfl, rfl⟩
  · intro s4 jobID hp
    rw [preCancelState_eq n ffmpegLog] at hp
    cases hp
    rfl

/-- The history of iterated publications: the published events are
appended with consecutively assigned sequence numbers. -/
theorem publishEvents_history (l : List Event) :
    ∀ s : App.AppState,
      (App.publishEvents s l).history =
        s.history ++ EventBus.annotateFrom s.bus.nextSeq l := by
  induction l with
  | nil => intro s; simp [App.publishEvents, EventBus.annotateFrom]
  | cons e rest ih =>
      intro s
      show (App.publishEvents (App.publishEvent s e).1 rest).history = _
      rw [ih]
      simp [App.publishEvent, EventBus.publish, EventBus.annotateFrom,
        List.append_assoc]

/-- C10: for a successfully started job, the status event
(preprocessing, "Job started") is published synchronously by
`StartTranscription` itself, before the asynchronous pipeline task can
publish anything; hence among all events carrying the fresh job id, the
start event has the strictly smallest sequence number, whatever the
task publishes afterwards. -/
theorem C10_start_event_first (s0 : App.AppState) (n : Int)
    (l : List Event)
    (hfresh : ∀ ev ∈ s0.history, ev.jobId ≠ "job-" ++ toString n)
    (hnotrun : Manager.isRunning s0.jobs.status = false) :
    ∃ s1, App.startTranscription s0 n = .ok (s1, "job-" ++ toString n) ∧
      s1.history = s0.history ++
        [{ seq := s0.bus.nextSeq + 1, jobId := "job-" ++ toString n, type := .status, status := some .preprocessing, message := "Job started" }] ∧
      ∀ ev ∈ (App.publishEvents s1 l).history,
        ev.jobId = "job-" ++ toString n →
        ev = { seq := s0.bus.nextSeq + 1, jobId := "job-" ++ toString n, type := .status, status := some .preprocessing, message := "Job started" } ∨
        s0.bus.nextSeq + 1 < ev.seq := by
  have hstart : App.startTranscription s0 n = .ok
      (App.publishStatus { s0 with jobs := { id := "job-" ++ toString n, status := .preprocessing }, activeJobID := "job-" ++ toString n, hasCancel := true } ("job-" ++ toString n) .preprocessing "Job started",
       "job-" ++ toString n) := by
    simp [App.startTranscription, Manager.start, hnotrun]
  refine ⟨_, hstart, rfl, ?_⟩
  intro ev hev hid
  rw [publishEvents_history] at hev
  simp only [App.publishStatus, App.publishEvent, EventBus.publish,
    List.mem_append, List.mem_singleton, List.append_assoc,
    List.singleton_append, List.mem_cons] at hev
  rcases hev with hev | hev | hev
  · exact absurd hid (hfresh ev hev)
  · exact Or.inl hev
  · right
    have := EventBus.annotateFrom_seq_gt _ _ ev hev
    omega

/-- C10 witness: starting job 1 from the fresh orchestrator state and
letting the task publish one later log event for the job. -/
theorem C10_witness :
    (∀ ev ∈ App.initialAppState.history,
      ev.jobId ≠ "job-" ++ toString (1 : Int)) ∧
    Manager.isRunning App.initialAppState.jobs.status = false ∧
    ∃ s1, App.startTranscription App.initialAppState 1 =
        .ok (s1, "job-" ++ toString (1 : Int)) ∧
      s1.history = App.initialAppState.history ++
        [{ seq := App.initialAppState.bus.nextSeq + 1, jobId := "job-" ++ toString (1 : Int), type := .status, status := some .preprocessing, message := "Job started" }] ∧
      ∀ ev ∈ (App.publishEvents s1
          [{ jobId := "job-" ++ toString (1 : Int), type := .log }]).history,
        ev.jobId = "job-" ++ toString (1 : Int) →
        ev = { seq := App.initialAppState.bus.nextSeq + 1, jobId := "job-" ++ toString (1 : Int), type := .status, status := some .preprocessing, message := "Job started" } ∨
        App.initialAppState.bus.nextSeq + 1 < ev.seq :=
  ⟨by simp [App.initialAppState], rfl,
    C10_start_event_first App.initialAppState 1
      [{ jobId := "job-" ++ toString (1 : Int), type := .log }]
      (by simp [App.initialAppState]) rfl⟩
